import Mathlib

/-!
Verification of the cement terminaltables output extension
(`cement/ext/ext_terminaltables.py`).

The Python module is glue around an external table-drawing library: it
inserts the optional header row at the front of the data list (mutating the
list passed by the caller), looks the configured style up in a fixed
style map, delegates the actual drawing, appends a newline and optionally
pads the result with blank lines.

The glue code is embedded directly from the source.  The drawing core
itself (the terminaltables layout algorithm) is not part of this
repository; it is modelled from the specification of the table rendering
core (column widths, multi-line cells, bordered frame, header separator,
shape errors).  Mutation of the data argument is made explicit: `render`
returns both the output and the final state of the data list.
-/

/-! ## Line splitting on the newline character -/

/-- Split a character list on the newline character; the result always has
at least one (possibly empty) segment, mirroring how a cell value is cut
into display lines. -/
def splitNl : List Char → List (List Char)
  | [] => [[]]
  | c :: cs =>
    match splitNl cs with
    | [] => [[c]]
    | l :: ls => if c = '\n' then [] :: l :: ls else (c :: l) :: ls

theorem splitNl_ne_nil (l : List Char) : splitNl l ≠ [] := by
  cases l with
  | nil => simp [splitNl]
  | cons c cs =>
    simp only [splitNl]
    cases splitNl cs with
    | nil => simp
    | cons x xs =>
      by_cases h : c = '\n' <;> simp [h]

theorem splitNl_cons_nl (cs : List Char) : splitNl ('\n' :: cs) = [] :: splitNl cs := by
  have h := splitNl_ne_nil cs
  cases hc : splitNl cs with
  | nil => exact absurd hc h
  | cons l ls => simp [splitNl, hc]

theorem splitNl_append (xs ys : List Char) (h : '\n' ∉ xs) :
    splitNl (xs ++ ys) = List.modifyHead (fun l => xs ++ l) (splitNl ys) := by
  induction xs with
  | nil =>
    cases hys : splitNl ys with
    | nil => exact absurd hys (splitNl_ne_nil ys)
    | cons l ls => simpa [List.modifyHead] using hys
  | cons c cs ih =>
    have hc : c ≠ '\n' := by
      intro hh
      exact h (by simp [hh])
    have hcs : '\n' ∉ cs := by
      intro hh
      exact h (by simp [hh])
    cases hys : splitNl ys with
    | nil => exact absurd hys (splitNl_ne_nil ys)
    | cons l ls =>
      have ihp := ih hcs
      rw [hys] at ihp
      simp only [List.modifyHead] at ihp
      have expand : splitNl (c :: (cs ++ ys))
          = match splitNl (cs ++ ys) with
            | [] => [[c]]
            | l :: ls => if c = '\n' then [] :: l :: ls else (c :: l) :: ls := rfl
      rw [List.cons_append, expand, ihp]
      simp [hc, List.modifyHead]

theorem splitNl_of_not_mem (xs : List Char) (h : '\n' ∉ xs) : splitNl xs = [xs] := by
  have := splitNl_append xs [] h
  simpa [splitNl, List.modifyHead] using this

theorem not_mem_of_mem_splitNl (l : List Char) : ∀ p ∈ splitNl l, '\n' ∉ p := by
  induction l with
  | nil =>
    intro p hp
    simp [splitNl] at hp
    simp [hp]
  | cons c cs ih =>
    intro p hp
    cases hcs : splitNl cs with
    | nil => exact absurd hcs (splitNl_ne_nil cs)
    | cons x xs =>
      rw [hcs] at ih
      simp only [splitNl, hcs] at hp
      by_cases hc : c = '\n'
      · simp [hc] at hp
        rcases hp with hp | hp | hp
        · simp [hp]
        · exact ih p (by simp [hp])
        · exact ih p (by simp [hp])
      · simp [hc] at hp
        rcases hp with hp | hp
        · subst hp
          intro hmem
          rcases List.mem_cons.mp hmem with hh | hh
          · exact hc hh.symm
          · exact ih x (by simp) hh
        · exact ih p (by simp [hp])

/-! ## Joining strings with a separator -/

/-- Concatenate a list of strings, placing the separator between
consecutive elements. -/
def joinSep (sep : String) : List String → String
  | [] => ""
  | [s] => s
  | s :: rest => s ++ sep ++ joinSep sep rest

theorem joinSep_cons (sep s : String) (r : String) (rest : List String) :
    joinSep sep (s :: r :: rest) = s ++ sep ++ joinSep sep (r :: rest) := rfl

theorem joinSep_length (sep : String) (parts : List String) :
    (joinSep sep parts).length
      = (parts.map String.length).sum + (parts.length - 1) * sep.length := by
  induction parts with
  | nil => simp [joinSep]
  | cons s rest ih =>
    cases rest with
    | nil => simp [joinSep]
    | cons r rs =>
      rw [joinSep_cons]
      simp only [String.length_append, ih]
      simp [List.length_cons, Nat.succ_sub_one, Nat.succ_mul]
      ring

theorem splitNl_joinSep (parts : List String) (hne : parts ≠ [])
    (h : ∀ p ∈ parts, '\n' ∉ p.data) :
    splitNl (joinSep "\n" parts).data = parts.map String.data := by
  induction parts with
  | nil => exact absurd rfl hne
  | cons s rest ih =>
    cases rest with
    | nil =>
      simp only [joinSep, List.map]
      exact splitNl_of_not_mem s.data (h s (by simp))
    | cons r rs =>
      rw [joinSep_cons]
      have hdata : (s ++ "\n" ++ joinSep "\n" (r :: rs)).data
          = s.data ++ ('\n' :: (joinSep "\n" (r :: rs)).data) := by
        simp [String.data_append]
      rw [hdata, splitNl_append s.data _ (h s (by simp)), splitNl_cons_nl]
      have ihp := ih (by simp) (fun p hp => h p (by simp [hp]))
      simp [List.modifyHead, ihp]

/-! ## Border styles and glyphs

The Python handler maps style names to the AsciiTable, SingleTable and
DoubleTable classes of the external library; here each class is
represented by a `BorderStyle` tag carrying its border glyphs. -/

/-- Tag for the three table classes of the style map. -/
inductive BorderStyle where
  | ascii
  | single
  | double
deriving DecidableEq

/-- Border drawing characters of one style: horizontal and vertical bars,
the four corners, the junctions of the top and bottom borders, and the
left, right and crossing junctions of the header separator. -/
structure Glyphs where
  hbar : Char
  vbar : Char
  tl : Char
  tr : Char
  bl : Char
  br : Char
  tj : Char
  bj : Char
  lj : Char
  rj : Char
  cross : Char
deriving DecidableEq

/-- Modelled from the spec: the fixed glyph set of each border style
(the glyph tables live in the external terminaltables library, not in
this repository). -/
def glyphsOf : BorderStyle → Glyphs
  | BorderStyle.ascii => ⟨'-', '|', '+', '+', '+', '+', '+', '+', '+', '+', '+'⟩
  | BorderStyle.single => ⟨'─', '│', '┌', '┐', '└', '┘', '┬', '┴', '├', '┤', '┼'⟩
  | BorderStyle.double => ⟨'═', '║', '╔', '╗', '╚', '╝', '╦', '╩', '╠', '╣', '╬'⟩

/-! ## String building blocks -/

/-- String of n spaces. -/
def spaces (n : Nat) : String := String.mk (List.replicate n ' ')

/-- String of n copies of one character. -/
def charFill (c : Char) (n : Nat) : String := String.mk (List.replicate n c)

/-- Pad a string on the right with spaces up to width w. -/
def padRight (s : String) (w : Nat) : String := s ++ spaces (w - s.length)

/-- Overlay a string onto the front of another, keeping the tail of the
second. -/
def overlay (t s : String) : String := String.mk (t.data ++ s.data.drop t.data.length)

/-! ## Cells, rows and column widths

Modelled from the spec: a cell value may contain embedded line breaks;
every line is a display unit, the height of a cell is its number of lines
(at least one, also for the empty string), and the width of a column is
the maximum rendered line length over all cells of that column. -/

/-- Display lines of one cell value. -/
def cellLines (s : String) : List String := (splitNl s.data).map String.mk

/-- Number of display lines of a cell. -/
def cellHeight (s : String) : Nat := (cellLines s).length

/-- Maximum display line length of a cell. -/
def cellWidth (s : String) : Nat := ((cellLines s).map String.length).foldl max 0

/-- Display line k of a cell, empty when the cell has fewer lines. -/
def cellLineAt (s : String) (k : Nat) : String := (cellLines s).getD k ""

/-- Number of physical output lines of a row: the maximum cell height. -/
def rowHeight (r : List String) : Nat := (r.map cellHeight).foldl max 1

/-- Width of every column: the maximum cell width down that column. -/
def colWidths (n : Nat) (rows : List (List String)) : List Nat :=
  (List.range n).map (fun c => (rows.map (fun r => cellWidth (r.getD c ""))).foldl max 0)

/-- Total character count between the two corner glyphs of a border:
every column takes its width plus one space of margin on each side, and
one junction character stands between consecutive columns. -/
def interiorWidth : List Nat → Nat
  | [] => 0
  | [w] => w + 2
  | w :: rest => w + 3 + interiorWidth rest

/-- Add an amount to the last element of a list of widths. -/
def addToLast : List Nat → Nat → List Nat
  | [], _ => []
  | [w], d => [w + d]
  | w :: rest, d => w :: addToLast rest d

/-- Character count of the optional title. -/
def titleStr (title : Option String) : String := title.getD ""

/-- Modelled from the spec: when the title exceeds the table width the
renderer widens the table (the last column) to fit it, never truncating
the title. -/
def widenedWidths (title : Option String) (ws : List Nat) : List Nat :=
  if (titleStr title).length ≤ interiorWidth ws then ws
  else addToLast ws ((titleStr title).length - interiorWidth ws)

/-! ## Drawing lines -/

/-- Rendered text of one cell on physical line k of its row: the display
line padded to the column width, with one space of margin on each side. -/
def renderCell (c : String) (k : Nat) (w : Nat) : String :=
  " " ++ padRight (cellLineAt c k) w ++ " "

/-- One physical output line of a data row. -/
def rowLine (g : Glyphs) (ws : List Nat) (r : List String) (k : Nat) : String :=
  String.singleton g.vbar
    ++ joinSep (String.singleton g.vbar)
        ((List.zip r ws).map (fun p => renderCell p.1 k p.2))
    ++ String.singleton g.vbar

/-- All physical output lines of a data row. -/
def rowLinesOf (g : Glyphs) (ws : List Nat) (r : List String) : List String :=
  (List.range (rowHeight r)).map (rowLine g ws r)

/-- Physical output lines of a list of rows, in order. -/
def flatRows (g : Glyphs) (ws : List Nat) : List (List String) → List String
  | [] => []
  | r :: rs => rowLinesOf g ws r ++ flatRows g ws rs

/-- Horizontal border segments, one per column. -/
def borderSegs (c : Char) (ws : List Nat) : List String :=
  ws.map (fun w => charFill c (w + 2))

/-- Interior of the top border, with the title overlaid at its front when
present; a zero-column frame reduces to the bare title. -/
def topInterior (g : Glyphs) (title : Option String) (ws : List Nat) : String :=
  match ws with
  | [] => titleStr title
  | _ => overlay (titleStr title) (joinSep (String.singleton g.tj) (borderSegs g.hbar ws))

/-- Interior of the bottom border. -/
def bottomInterior (g : Glyphs) (title : Option String) (ws : List Nat) : String :=
  match ws with
  | [] => charFill g.hbar (titleStr title).length
  | _ => joinSep (String.singleton g.bj) (borderSegs g.hbar ws)

/-- Top border line. -/
def topBorder (g : Glyphs) (title : Option String) (ws : List Nat) : String :=
  String.singleton g.tl ++ topInterior g title ws ++ String.singleton g.tr

/-- Bottom border line. -/
def bottomBorder (g : Glyphs) (title : Option String) (ws : List Nat) : String :=
  String.singleton g.bl ++ bottomInterior g title ws ++ String.singleton g.br

/-- Header separator line. -/
def headSep (g : Glyphs) (ws : List Nat) : String :=
  String.singleton g.lj
    ++ joinSep (String.singleton g.cross) (borderSegs g.hbar ws)
    ++ String.singleton g.rj

/-- Modelled from the spec: the body lines of the table: the header row
lines followed by the header separator when a header is present, then the
data row lines. -/
def bodyLines (g : Glyphs) (ws : List Nat) (rows : List (List String))
    (hasHeader : Bool) : List String :=
  match hasHeader, rows with
  | true, r0 :: rest => rowLinesOf g ws r0 ++ headSep g ws :: flatRows g ws rest
  | _, _ => flatRows g ws rows

/-- Modelled from the spec: the ordered lines of the rendered table, the
body framed by the top and bottom borders. -/
def tableLines (g : Glyphs) (ws : List Nat) (rows : List (List String))
    (hasHeader : Bool) (title : Option String) : List String :=
  topBorder g title ws :: bodyLines g ws rows hasHeader ++ [bottomBorder g title ws]

/-! ## Errors and the rendering core -/

/-- Errors of the renderer: the shape and empty-column errors of the
specified drawing core, the generic lookup failure (KeyError) the Python
glue raises on an unknown style key, and the ConfigurationError the spec
names (present in the taxonomy only; the glue never raises it). -/
inductive RenderError where
  | shapeError (rowIndex : Nat) (expected : Nat) (actual : Nat)
  | emptyColumnSetError
  | keyError (key : String)
  | configurationError (message : String)
deriving DecidableEq

/-- First row, scanning from index i, whose cell count differs from n;
returns its index and its actual cell count. -/
def findMismatch (n : Nat) : Nat → List (List String) → Option (Nat × Nat)
  | _, [] => none
  | i, r :: rs => if r.length = n then findMismatch n (i + 1) rs else some (i, r.length)

/-- Modelled from the spec: the table rendering core (the layout
algorithm of the external terminaltables library is not part of this
repository).  The expected cell count is that of the first row; a row
with a different count is a ShapeError naming its index and counts, a
non-empty table of zero-length rows is an EmptyColumnSetError, an empty
row list renders a frame of only top and bottom borders.  On success the
lines are joined with single newlines and no trailing newline. -/
def tableCore (style : BorderStyle) (rows : List (List String))
    (hasHeader : Bool) (title : Option String) : Except RenderError String :=
  match rows with
  | [] => Except.ok (joinSep "\n" (tableLines (glyphsOf style) [] [] false title))
  | r0 :: _ =>
    match findMismatch r0.length 0 rows with
    | some (i, a) => Except.error (RenderError.shapeError i r0.length a)
    | none =>
      if r0.length = 0 then Except.error RenderError.emptyColumnSetError
      else
        Except.ok (joinSep "\n"
          (tableLines (glyphsOf style)
            (widenedWidths title (colWidths r0.length rows)) rows hasHeader title))

/-! ## The Python glue, embedded from the source -/

/-- Handler meta-data of TerminaltablesOutputHandler.Meta: the padding
flag and the default table format string. -/
structure Meta where
  padding : Bool
  style : String
deriving DecidableEq

/-- Default Meta values of the source: padding = True, style = ascii. -/
def metaDefaults : Meta := ⟨true, "ascii"⟩

/-- Meta.config_defaults of the source: dict(style = ascii). -/
def config_defaults : List (String × String) := [("style", "ascii")]

/-- Meta.style_map of the source: the three recognized style names and
the table class each selects; every other key is absent from the map. -/
def style_map (s : String) : Option BorderStyle :=
  if s = "ascii" then some BorderStyle.ascii
  else if s = "single" then some BorderStyle.single
  else if s = "double" then some BorderStyle.double
  else none

/-- The _config method of the handler.  The app configuration for the
output.terminaltables section is a total key to value map; the body
returns self.app.config.get(self._meta.config_section, key) and never
reads its default parameter. -/
def tt_config (cfg : String → String) (key : String) (default : Option String) : String :=
  cfg key

/-- The headers argument of render as a Python value: the code checks
both truthiness and isinstance(headers, list), so a tuple is modelled
alongside a list. -/
inductive PyHeaders where
  | pylist (l : List String)
  | pytuple (l : List String)
deriving DecidableEq

/-- Python truthiness of the headers argument: an empty sequence is
falsy. -/
def PyHeaders.truthy : PyHeaders → Bool
  | PyHeaders.pylist l => decide (l ≠ [])
  | PyHeaders.pytuple l => decide (l ≠ [])

/-- The isinstance(headers, list) test. -/
def PyHeaders.isListInstance : PyHeaders → Bool
  | PyHeaders.pylist _ => true
  | PyHeaders.pytuple _ => false

/-- Underlying elements of the headers argument. -/
def PyHeaders.elems : PyHeaders → List String
  | PyHeaders.pylist l => l
  | PyHeaders.pytuple l => l

/-- State of the data list after the headers handling of render:
data.insert(0, headers) runs exactly when headers is truthy and a list
instance, and it mutates the list the caller passed in. -/
def insertedRows (data : List (List String)) (headers : PyHeaders) : List (List String) :=
  if headers.truthy && headers.isListInstance then headers.elems :: data else data

deriving instance DecidableEq for Except

/-- Result of a render call: the returned value (or the exception it
raises) together with the final state of the data list the caller
passed in. -/
structure RenderResult where
  out : Except RenderError String
  dataAfter : List (List String)
deriving DecidableEq

/-- The render method of TerminaltablesOutputHandler, embedded from the
source: insert a truthy list headers argument at the front of data, look
the configured style up in the style map (a missing key raises the
lookup KeyError), draw the table, append one newline, and wrap the whole
in one leading and one trailing newline when padding is set.  The extra
keyword arguments kw are accepted and never read. -/
def render (cfg : String → String) (m : Meta) (data : List (List String))
    (headers : PyHeaders) (title : Option String)
    (kw : List (String × String)) : RenderResult :=
  let data2 := insertedRows data headers
  let style := tt_config cfg "style" (some m.style)
  match style_map style with
  | none => RenderResult.mk (Except.error (RenderError.keyError style)) data2
  | some bs =>
    match tableCore bs data2 (headers.truthy && headers.isListInstance) title with
    | Except.error e => RenderResult.mk (Except.error e) data2
    | Except.ok t =>
      RenderResult.mk
        (Except.ok (if m.padding then "\n" ++ (t ++ "\n") ++ "\n" else t ++ "\n")) data2

/-- Lines of a rendered string, splitting on the newline character. -/
def asLines (s : String) : List String := (splitNl s.data).map String.mk

/-- Configuration map holding only the merged defaults. -/
def cfgDefault : String → String := fun _ => "ascii"

/-- Configuration map with an unrecognized style value. -/
def cfgFancy : String → String := fun _ => "fancy"

/-! ## Length lemmas -/

theorem length_mk (l : List Char) : (String.mk l).length = l.length := rfl

theorem data_length (s : String) : s.length = s.data.length := rfl

theorem mk_data (s : String) : String.mk s.data = s := by
  cases s
  rfl

theorem spaces_length (n : Nat) : (spaces n).length = n := by
  simp [spaces, length_mk]

theorem charFill_length (c : Char) (n : Nat) : (charFill c n).length = n := by
  simp [charFill, length_mk]

theorem singleton_length (c : Char) : (String.singleton c).length = 1 := rfl

theorem padRight_length (s : String) (w : Nat) (h : s.length ≤ w) :
    (padRight s w).length = w := by
  simp [padRight, String.length_append, spaces_length]
  omega

theorem overlay_length (t s : String) (h : t.length ≤ s.length) :
    (overlay t s).length = s.length := by
  simp only [overlay, length_mk, List.length_append, List.length_drop]
  rw [data_length, data_length] at h
  rw [data_length]
  omega

theorem interiorWidth_cons (w : Nat) (x : Nat) (rest : List Nat) :
    interiorWidth (w :: x :: rest) = w + 3 + interiorWidth (x :: rest) := rfl

theorem interiorWidth_eq (ws : List Nat) :
    interiorWidth ws = (ws.map (fun w => w + 2)).sum + (ws.length - 1) := by
  induction ws with
  | nil => simp [interiorWidth]
  | cons w rest ih =>
    cases rest with
    | nil => simp [interiorWidth]
    | cons x rs =>
      rw [interiorWidth_cons, ih]
      simp [List.length_cons]
      omega

theorem borderSegs_lengths (c : Char) (ws : List Nat) :
    ((borderSegs c ws).map String.length) = ws.map (fun w => w + 2) := by
  simp [borderSegs, List.map_map, Function.comp]
  simp [charFill_length]

theorem borderSegsJoin_length (j c : Char) (ws : List Nat) :
    (joinSep (String.singleton j) (borderSegs c ws)).length = interiorWidth ws := by
  rw [joinSep_length, borderSegs_lengths, interiorWidth_eq]
  simp [borderSegs, singleton_length]

theorem addToLast_length (ws : List Nat) (d : Nat) :
    (addToLast ws d).length = ws.length := by
  induction ws with
  | nil => rfl
  | cons w rest ih =>
    cases rest with
    | nil => rfl
    | cons x rs => simpa [addToLast] using ih

theorem interiorWidth_addToLast (ws : List Nat) (d : Nat) (h : ws ≠ []) :
    interiorWidth (addToLast ws d) = interiorWidth ws + d := by
  induction ws with
  | nil => exact absurd rfl h
  | cons w rest ih =>
    cases rest with
    | nil => simp [addToLast, interiorWidth]; omega
    | cons x rs =>
      have hh : addToLast (w :: x :: rs) d = w :: addToLast (x :: rs) d := rfl
      rw [hh]
      have hx : addToLast (x :: rs) d ≠ [] := by
        intro hc
        have := addToLast_length (x :: rs) d
        rw [hc] at this
        simp at this
      cases hax : addToLast (x :: rs) d with
      | nil => exact absurd hax hx
      | cons y ys =>
        rw [interiorWidth_cons]
        rw [hax] at ih
        rw [ih (by simp)]
        rw [interiorWidth_cons]
        omega

theorem widenedWidths_length (title : Option String) (ws : List Nat) :
    (widenedWidths title ws).length = ws.length := by
  unfold widenedWidths
  split
  · rfl
  · exact addToLast_length ws _

theorem widened_titleFits (title : Option String) (ws : List Nat) (h : ws ≠ []) :
    (titleStr title).length ≤ interiorWidth (widenedWidths title ws) := by
  unfold widenedWidths
  split
  · assumption
  · rw [interiorWidth_addToLast ws _ h]
    omega

/-! ## Maximum folds and column width bounds -/

theorem init_le_foldl_max (l : List Nat) (init : Nat) : init ≤ l.foldl max init := by
  induction l generalizing init with
  | nil => simp
  | cons x xs ih =>
    simp only [List.foldl]
    exact le_trans (Nat.le_max_left init x) (ih (max init x))

theorem le_foldl_max (l : List Nat) (init a : Nat) (h : a ∈ l) : a ≤ l.foldl max init := by
  induction l generalizing init with
  | nil => simp at h
  | cons x xs ih =>
    simp only [List.foldl]
    rcases List.mem_cons.mp h with hh | hh
    · subst hh
      exact le_trans (Nat.le_max_right init a) (init_le_foldl_max xs _)
    · exact ih _ hh

theorem cellLineAt_length_le (s : String) (k : Nat) :
    (cellLineAt s k).length ≤ cellWidth s := by
  unfold cellLineAt cellWidth
  rcases Nat.lt_or_ge k (cellLines s).length with h | h
  · have hm : (cellLines s).getD k "" ∈ cellLines s := by
      rw [List.getD_eq_getElem _ _ h]
      exact List.getElem_mem h
    exact le_foldl_max _ 0 _ (List.mem_map_of_mem String.length hm)
  · rw [List.getD_eq_default _ _ h]
    simp

theorem colWidths_length (n : Nat) (rows : List (List String)) :
    (colWidths n rows).length = n := by
  simp [colWidths]

theorem fits_colWidths (n : Nat) (rows : List (List String)) (r : List String)
    (hr : r ∈ rows) (hlen : r.length = n) :
    List.Forall₂ (fun c w => cellWidth c ≤ w) r (colWidths n rows) := by
  rw [List.forall₂_iff_get]
  constructor
  · rw [colWidths_length, hlen]
  · intro i h1 h2
    have hi : i < n := by
      rw [colWidths_length] at h2
      exact h2
    have hget : (colWidths n rows).get ⟨i, h2⟩
        = (rows.map (fun row => cellWidth (row.getD i ""))).foldl max 0 := by
      simp [colWidths]
    rw [hget]
    have hrd : r.get ⟨i, h1⟩ = r.getD i "" := by
      rw [List.getD_eq_getElem _ _ h1]
      simp
    rw [hrd]
    exact le_foldl_max _ 0 _ (List.mem_map_of_mem (fun row => cellWidth (row.getD i "")) hr)

theorem addToLast_le (ws : List Nat) (d : Nat) :
    List.Forall₂ (fun a b => a ≤ b) ws (addToLast ws d) := by
  induction ws with
  | nil => exact List.Forall₂.nil
  | cons w rest ih =>
    cases rest with
    | nil =>
      exact List.Forall₂.cons (Nat.le_add_right w d) List.Forall₂.nil
    | cons x rs =>
      exact List.Forall₂.cons (Nat.le_refl w) ih

theorem widened_le (title : Option String) (ws : List Nat) :
    List.Forall₂ (fun a b => a ≤ b) ws (widenedWidths title ws) := by
  unfold widenedWidths
  split
  · exact List.forall₂_same.mpr (fun a _ => Nat.le_refl a)
  · exact addToLast_le ws _

theorem fits_mono (r : List String) (ws ws2 : List Nat)
    (h1 : List.Forall₂ (fun c w => cellWidth c ≤ w) r ws)
    (h2 : List.Forall₂ (fun a b => a ≤ b) ws ws2) :
    List.Forall₂ (fun c w => cellWidth c ≤ w) r ws2 := by
  induction h1 generalizing ws2 with
  | nil =>
    cases h2
    exact List.Forall₂.nil
  | cons hcw hrest ih =>
    cases h2 with
    | cons hle hrest2 =>
      exact List.Forall₂.cons (le_trans hcw hle) (ih _ hrest2)

/-! ## Every line of a well-formed frame has the same width -/

/-- Width of every physical line of the frame, corners included. -/
def frameWidth (title : Option String) (ws : List Nat) : Nat :=
  match ws with
  | [] => (titleStr title).length + 2
  | _ => interiorWidth ws + 2

theorem renderCell_length (c : String) (k w : Nat) (h : cellWidth c ≤ w) :
    (renderCell c k w).length = w + 2 := by
  unfold renderCell
  rw [String.length_append, String.length_append,
    padRight_length _ _ (le_trans (cellLineAt_length_le c k) h)]
  have h1 : (" " : String).length = 1 := rfl
  rw [h1]
  omega

theorem renderCells_lengths (k : Nat) (r : List String) (ws : List Nat)
    (h : List.Forall₂ (fun c w => cellWidth c ≤ w) r ws) :
    ((List.zip r ws).map (fun p => renderCell p.1 k p.2)).map String.length
      = ws.map (fun w => w + 2) := by
  induction h with
  | nil => rfl
  | cons hcw hrest ih =>
    simp only [List.zip_cons_cons, List.map_cons]
    rw [renderCell_length _ k _ hcw]
    rw [ih]

theorem rowLine_length (g : Glyphs) (ws : List Nat) (r : List String) (k : Nat)
    (h : List.Forall₂ (fun c w => cellWidth c ≤ w) r ws) :
    (rowLine g ws r k).length = frameWidth none ws := by
  unfold rowLine
  rw [String.length_append, String.length_append, singleton_length,
    joinSep_length, renderCells_lengths k r ws h, singleton_length]
  have hlen : (List.zip r ws).length = ws.length := by
    rw [List.length_zip, List.Forall₂.length_eq h]
    exact Nat.min_self _
  rw [List.length_map, hlen]
  cases ws with
  | nil => simp [frameWidth, titleStr]
  | cons w rest =>
    simp only [frameWidth]
    rw [interiorWidth_eq]
    simp
    omega

theorem headSep_length (g : Glyphs) (ws : List Nat) :
    (headSep g ws).length = interiorWidth ws + 2 := by
  unfold headSep
  rw [String.length_append, String.length_append, singleton_length, singleton_length,
    borderSegsJoin_length]
  omega

theorem bottomBorder_length (g : Glyphs) (title : Option String) (ws : List Nat) :
    (bottomBorder g title ws).length = frameWidth title ws := by
  unfold bottomBorder bottomInterior
  cases ws with
  | nil =>
    rw [String.length_append, String.length_append, singleton_length, singleton_length,
      charFill_length]
    simp [frameWidth]
    omega
  | cons w rest =>
    rw [String.length_append, String.length_append, singleton_length, singleton_length,
      borderSegsJoin_length]
    simp [frameWidth]
    omega

theorem topBorder_length (g : Glyphs) (title : Option String) (ws : List Nat)
    (h : ws ≠ [] → (titleStr title).length ≤ interiorWidth ws) :
    (topBorder g title ws).length = frameWidth title ws := by
  unfold topBorder topInterior
  cases ws with
  | nil =>
    rw [String.length_append, String.length_append, singleton_length, singleton_length]
    simp [frameWidth]
    omega
  | cons w rest =>
    rw [String.length_append, String.length_append, singleton_length, singleton_length]
    rw [overlay_length _ _ (by rw [borderSegsJoin_length]; exact h (by simp))]
    rw [borderSegsJoin_length]
    simp [frameWidth]
    omega

theorem mem_flatRows (g : Glyphs) (ws : List Nat) (rows : List (List String))
    (line : String) (h : line ∈ flatRows g ws rows) :
    ∃ r ∈ rows, ∃ k, line = rowLine g ws r k := by
  induction rows with
  | nil => simp [flatRows] at h
  | cons r rs ih =>
    simp only [flatRows, List.mem_append] at h
    rcases h with h | h
    · simp only [rowLinesOf, List.mem_map] at h
      rcases h with ⟨k, _, hk⟩
      exact ⟨r, by simp, k, hk.symm⟩
    · rcases ih h with ⟨r2, hr2, k, hk⟩
      exact ⟨r2, by simp [hr2], k, hk⟩

theorem mem_bodyLines (g : Glyphs) (ws : List Nat) (rows : List (List String))
    (hasHeader : Bool) (line : String)
    (h : line ∈ bodyLines g ws rows hasHeader) :
    (∃ r ∈ rows, ∃ k, line = rowLine g ws r k) ∨ (line = headSep g ws ∧ rows ≠ []) := by
  cases hasHeader with
  | false =>
    have hb : bodyLines g ws rows false = flatRows g ws rows := by
      cases rows <;> rfl
    rw [hb] at h
    exact Or.inl (mem_flatRows g ws rows line h)
  | true =>
    cases rows with
    | nil =>
      have hb : bodyLines g ws [] true = [] := rfl
      rw [hb] at h
      simp at h
    | cons r0 rest =>
      have hb : bodyLines g ws (r0 :: rest) true
          = rowLinesOf g ws r0 ++ headSep g ws :: flatRows g ws rest := rfl
      rw [hb] at h
      rcases List.mem_append.mp h with hl | hl
      · simp only [rowLinesOf, List.mem_map] at hl
        rcases hl with ⟨k, _, hk⟩
        exact Or.inl ⟨r0, by simp, k, hk.symm⟩
      · rcases List.mem_cons.mp hl with hl | hl
        · exact Or.inr ⟨hl, by simp⟩
        · rcases mem_flatRows g ws rest line hl with ⟨r, hr, k, hk⟩
          exact Or.inl ⟨r, by simp [hr], k, hk⟩

theorem tableLines_rect (g : Glyphs) (ws : List Nat) (rows : List (List String))
    (hasHeader : Bool) (title : Option String)
    (hfits : ∀ r ∈ rows, List.Forall₂ (fun c w => cellWidth c ≤ w) r ws)
    (hempty : ws = [] → rows = [])
    (htitle : ws ≠ [] → (titleStr title).length ≤ interiorWidth ws) :
    ∀ line ∈ tableLines g ws rows hasHeader title, line.length = frameWidth title ws := by
  intro line hline
  have hrow : ∀ r ∈ rows, ∀ k : Nat, (rowLine g ws r k).length = frameWidth title ws := by
    intro r hr k
    rw [rowLine_length g ws r k (hfits r hr)]
    cases hws : ws with
    | nil =>
      rw [hempty hws] at hr
      simp at hr
    | cons w rest => simp [frameWidth]
  unfold tableLines at hline
  rw [List.cons_append, List.mem_cons] at hline
  rcases hline with hl | hl
  · rw [hl]
    exact topBorder_length g title ws htitle
  · rw [List.mem_append] at hl
    rcases hl with hl | hl
    · rcases mem_bodyLines g ws rows hasHeader line hl with ⟨r, hr, k, hk⟩ | ⟨hsep, hne⟩
      · rw [hk]
        exact hrow r hr k
      · rw [hsep, headSep_length]
        cases hws : ws with
        | nil => exact absurd (hempty hws) hne
        | cons w rest => simp [frameWidth]
    · simp at hl
      rw [hl]
      exact bottomBorder_length g title ws

/-! ## No line of the frame contains a newline character -/

/-- No border glyph of a style is the newline character. -/
def GlyphsWf (g : Glyphs) : Prop :=
  g.hbar ≠ '\n' ∧ g.vbar ≠ '\n' ∧ g.tl ≠ '\n' ∧ g.tr ≠ '\n' ∧ g.bl ≠ '\n'
    ∧ g.br ≠ '\n' ∧ g.tj ≠ '\n' ∧ g.bj ≠ '\n' ∧ g.lj ≠ '\n' ∧ g.rj ≠ '\n'
    ∧ g.cross ≠ '\n'

theorem glyphsOf_wf (bs : BorderStyle) : GlyphsWf (glyphsOf bs) := by
  unfold GlyphsWf
  cases bs <;> exact (by decide)

theorem charFill_noNl (c : Char) (n : Nat) (h : c ≠ '\n') :
    '\n' ∉ (charFill c n).data := by
  intro hm
  simp only [charFill] at hm
  exact h (List.eq_of_mem_replicate hm).symm

theorem spaces_noNl (n : Nat) : '\n' ∉ (spaces n).data :=
  charFill_noNl ' ' n (by decide)

theorem singleton_noNl (c : Char) (h : c ≠ '\n') : '\n' ∉ (String.singleton c).data := by
  intro hm
  have hd : (String.singleton c).data = [c] := rfl
  rw [hd] at hm
  simp at hm
  exact h hm.symm

theorem append_noNl (a b : String) (ha : '\n' ∉ a.data) (hb : '\n' ∉ b.data) :
    '\n' ∉ (a ++ b).data := by
  rw [String.data_append]
  intro hm
  rcases List.mem_append.mp hm with hm | hm
  · exact ha hm
  · exact hb hm

theorem joinSep_noNl (sep : String) (parts : List String)
    (hsep : '\n' ∉ sep.data) (h : ∀ p ∈ parts, '\n' ∉ p.data) :
    '\n' ∉ (joinSep sep parts).data := by
  induction parts with
  | nil => simp [joinSep]
  | cons s rest ih =>
    cases rest with
    | nil => exact h s (by simp)
    | cons r rs =>
      rw [joinSep_cons]
      exact append_noNl _ _ (append_noNl _ _ (h s (by simp)) hsep)
        (ih (fun p hp => h p (by simp [hp])))

theorem getD_mem_or (l : List α) (k : Nat) (d : α) : l.getD k d ∈ l ∨ l.getD k d = d := by
  induction l generalizing k with
  | nil => simp
  | cons x xs ih =>
    cases k with
    | zero => simp
    | succ k2 =>
      rw [List.getD_cons_succ]
      rcases ih k2 with h | h
      · exact Or.inl (List.mem_cons_of_mem x h)
      · exact Or.inr h

theorem cellLineAt_noNl (s : String) (k : Nat) : '\n' ∉ (cellLineAt s k).data := by
  unfold cellLineAt
  rcases getD_mem_or (cellLines s) k "" with h | h
  · rcases List.mem_map.mp h with ⟨p, hp, hmk⟩
    rw [← hmk]
    exact not_mem_of_mem_splitNl s.data p hp
  · rw [h]
    simp

theorem padRight_noNl (s : String) (w : Nat) (h : '\n' ∉ s.data) :
    '\n' ∉ (padRight s w).data :=
  append_noNl _ _ h (spaces_noNl _)

theorem renderCell_noNl (c : String) (k w : Nat) : '\n' ∉ (renderCell c k w).data :=
  append_noNl _ _
    (append_noNl _ _ (by decide) (padRight_noNl _ _ (cellLineAt_noNl c k)))
    (by decide)

theorem rowLine_noNl (g : Glyphs) (ws : List Nat) (r : List String) (k : Nat)
    (hg : GlyphsWf g) : '\n' ∉ (rowLine g ws r k).data := by
  unfold rowLine
  apply append_noNl
  · apply append_noNl
    · exact singleton_noNl _ hg.2.1
    · apply joinSep_noNl
      · exact singleton_noNl _ hg.2.1
      · intro p hp
        simp only [List.mem_map] at hp
        rcases hp with ⟨q, _, hq⟩
        rw [← hq]
        exact renderCell_noNl q.1 k q.2
  · exact singleton_noNl _ hg.2.1

theorem overlay_noNl (t s : String) (ht : '\n' ∉ t.data) (hs : '\n' ∉ s.data) :
    '\n' ∉ (overlay t s).data := by
  unfold overlay
  intro hm
  rcases List.mem_append.mp hm with hm | hm
  · exact ht hm
  · exact hs (List.mem_of_mem_drop hm)

theorem borderSegsJoin_noNl (j c : Char) (ws : List Nat)
    (hj : j ≠ '\n') (hc : c ≠ '\n') :
    '\n' ∉ (joinSep (String.singleton j) (borderSegs c ws)).data := by
  apply joinSep_noNl
  · exact singleton_noNl _ hj
  · intro p hp
    simp only [borderSegs, List.mem_map] at hp
    rcases hp with ⟨w, _, hw⟩
    rw [← hw]
    exact charFill_noNl c _ hc

theorem topBorder_noNl (g : Glyphs) (title : Option String) (ws : List Nat)
    (hg : GlyphsWf g) (ht : '\n' ∉ (titleStr title).data) :
    '\n' ∉ (topBorder g title ws).data := by
  unfold topBorder topInterior
  cases ws with
  | nil =>
    exact append_noNl _ _ (append_noNl _ _ (singleton_noNl _ hg.2.2.1) ht)
      (singleton_noNl _ hg.2.2.2.1)
  | cons w rest =>
    exact append_noNl _ _
      (append_noNl _ _ (singleton_noNl _ hg.2.2.1)
        (overlay_noNl _ _ ht (borderSegsJoin_noNl _ _ _ hg.2.2.2.2.2.2.1 hg.1)))
      (singleton_noNl _ hg.2.2.2.1)

theorem bottomBorder_noNl (g : Glyphs) (title : Option String) (ws : List Nat)
    (hg : GlyphsWf g) : '\n' ∉ (bottomBorder g title ws).data := by
  unfold bottomBorder bottomInterior
  cases ws with
  | nil =>
    exact append_noNl _ _
      (append_noNl _ _ (singleton_noNl _ hg.2.2.2.2.1) (charFill_noNl _ _ hg.1))
      (singleton_noNl _ hg.2.2.2.2.2.1)
  | cons w rest =>
    exact append_noNl _ _
      (append_noNl _ _ (singleton_noNl _ hg.2.2.2.2.1)
        (borderSegsJoin_noNl _ _ _ hg.2.2.2.2.2.2.2.1 hg.1))
      (singleton_noNl _ hg.2.2.2.2.2.1)

theorem headSep_noNl (g : Glyphs) (ws : List Nat) (hg : GlyphsWf g) :
    '\n' ∉ (headSep g ws).data := by
  unfold headSep
  exact append_noNl _ _
    (append_noNl _ _ (singleton_noNl _ hg.2.2.2.2.2.2.2.2.1)
      (borderSegsJoin_noNl _ _ _ hg.2.2.2.2.2.2.2.2.2.2 hg.1))
    (singleton_noNl _ hg.2.2.2.2.2.2.2.2.2.1)

theorem tableLines_noNl (g : Glyphs) (ws : List Nat) (rows : List (List String))
    (hasHeader : Bool) (title : Option String)
    (hg : GlyphsWf g) (ht : '\n' ∉ (titleStr title).data) :
    ∀ line ∈ tableLines g ws rows hasHeader title, '\n' ∉ line.data := by
  intro line hline
  unfold tableLines at hline
  rw [List.cons_append, List.mem_cons] at hline
  rcases hline with hl | hl
  · rw [hl]
    exact topBorder_noNl g title ws hg ht
  · rw [List.mem_append] at hl
    rcases hl with hl | hl
    · rcases mem_bodyLines g ws rows hasHeader line hl with ⟨r, _, k, hk⟩ | ⟨hsp, _⟩
      · rw [hk]
        exact rowLine_noNl g ws r k hg
      · rw [hsp]
        exact headSep_noNl g ws hg
    · simp at hl
      rw [hl]
      exact bottomBorder_noNl g title ws hg

/-! ## Recovering the line list from a joined string -/

theorem joinSep_snoc_empty_data (parts : List String) (hne : parts ≠ []) :
    (joinSep "\n" (parts ++ [""])).data = (joinSep "\n" parts).data ++ ['\n'] := by
  induction parts with
  | nil => exact absurd rfl hne
  | cons s rest ih =>
    cases rest with
    | nil => simp [joinSep, String.data_append]
    | cons r rs =>
      have h1 : (s :: r :: rs) ++ [""] = s :: r :: (rs ++ [""]) := rfl
      have h2 : r :: (rs ++ [""]) = (r :: rs) ++ [""] := rfl
      rw [h1, joinSep_cons, h2, joinSep_cons]
      simp only [String.data_append, ih (by simp)]
      simp [String.data_append]

theorem map_eq_self_helper (parts : List String) :
    (parts.map String.data).map String.mk = parts := by
  rw [List.map_map]
  have hc : (String.mk ∘ String.data) = id := by
    funext p
    simp [Function.comp, mk_data]
  rw [hc, List.map_id]

theorem asLines_joinSep (parts : List String) (hne : parts ≠ [])
    (h : ∀ p ∈ parts, '\n' ∉ p.data) :
    asLines (joinSep "\n" parts) = parts := by
  unfold asLines
  rw [splitNl_joinSep parts hne h]
  exact map_eq_self_helper parts

theorem str_nil_append (x : String) : "" ++ x = x := by
  apply String.ext
  simp [String.data_append]

theorem asLines_unpadded (L : List String) (hne : L ≠ [])
    (h : ∀ p ∈ L, '\n' ∉ p.data) :
    asLines (joinSep "\n" L ++ "\n") = L ++ [""] := by
  have hstr : joinSep "\n" L ++ "\n" = joinSep "\n" (L ++ [""]) := by
    apply String.ext
    rw [joinSep_snoc_empty_data L hne]
    simp [String.data_append]
  rw [hstr]
  apply asLines_joinSep _ (by simp)
  intro p hp
  rcases List.mem_append.mp hp with hp | hp
  · exact h p hp
  · simp at hp
    simp [hp]

theorem asLines_padded (L : List String) (hne : L ≠ [])
    (h : ∀ p ∈ L, '\n' ∉ p.data) :
    asLines ("\n" ++ (joinSep "\n" L ++ "\n") ++ "\n") = "" :: (L ++ ["", ""]) := by
  have hPne : ((L ++ [""]) ++ [""]) ≠ [] := by simp
  rcases List.exists_cons_of_ne_nil hPne with ⟨p, ps, hP⟩
  have hstr : "\n" ++ (joinSep "\n" L ++ "\n") ++ "\n"
      = joinSep "\n" ("" :: ((L ++ [""]) ++ [""])) := by
    apply String.ext
    rw [hP, joinSep_cons, ← hP]
    simp only [String.data_append]
    rw [joinSep_snoc_empty_data (L ++ [""]) (by simp), joinSep_snoc_empty_data L hne]
    simp
  rw [hstr]
  have hres : asLines (joinSep "\n" ("" :: ((L ++ [""]) ++ [""])))
      = "" :: ((L ++ [""]) ++ [""]) := by
    apply asLines_joinSep _ (by simp)
    intro q hq
    rcases List.mem_cons.mp hq with hq | hq
    · simp [hq]
    · rcases List.mem_append.mp hq with hq | hq
      · rcases List.mem_append.mp hq with hq | hq
        · exact h q hq
        · simp at hq
          simp [hq]
      · simp at hq
        simp [hq]
  rw [hres]
  simp

/-! ## Shape scan of the rendering core -/

theorem findMismatch_none_iff (n : Nat) (rows : List (List String)) :
    ∀ i, findMismatch n i rows = none ↔ ∀ r ∈ rows, r.length = n := by
  induction rows with
  | nil => intro i; simp [findMismatch]
  | cons r rs ih =>
    intro i
    by_cases h : r.length = n
    · simp [findMismatch, h, ih (i + 1)]
    · simp [findMismatch, h]

theorem findMismatch_some_spec (n : Nat) (rows : List (List String)) :
    ∀ i j a, findMismatch n i rows = some (j, a) →
      ∃ k, k < rows.length ∧ j = i + k ∧ (rows.getD k []).length = a ∧ a ≠ n := by
  induction rows with
  | nil => intro i j a h; simp [findMismatch] at h
  | cons r rs ih =>
    intro i j a h
    by_cases hr : r.length = n
    · rw [show findMismatch n i (r :: rs) = findMismatch n (i + 1) rs
        from by simp [findMismatch, hr]] at h
      rcases ih (i + 1) j a h with ⟨k, hk, hj, hg, ha⟩
      refine ⟨k + 1, by simp; omega, by omega, ?_, ha⟩
      rw [List.getD_cons_succ]
      exact hg
    · rw [show findMismatch n i (r :: rs) = some (i, r.length)
        from by simp [findMismatch, hr]] at h
      have hj : j = i ∧ a = r.length := by
        have := Option.some.inj h
        constructor
        · exact (congrArg Prod.fst this).symm
        · exact (congrArg Prod.snd this).symm
      refine ⟨0, by simp, by omega, ?_, ?_⟩
      · rw [List.getD_cons_zero]
        exact hj.2.symm
      · rw [hj.2]
        exact hr

/-! ## Structure of a successful core render -/

theorem tableCore_ok_cases (style : BorderStyle) (rows : List (List String))
    (hasHeader : Bool) (title : Option String) (t : String)
    (h : tableCore style rows hasHeader title = Except.ok t) :
    (rows = [] ∧ t = joinSep "\n" (tableLines (glyphsOf style) [] [] false title)) ∨
    (∃ r0 rest, rows = r0 :: rest ∧ r0.length ≠ 0
      ∧ (∀ r ∈ rows, r.length = r0.length)
      ∧ t = joinSep "\n" (tableLines (glyphsOf style)
          (widenedWidths title (colWidths r0.length rows)) rows hasHeader title)) := by
  cases hrows : rows with
  | nil =>
    rw [hrows] at h
    unfold tableCore at h
    exact Or.inl ⟨rfl, (Except.ok.inj h).symm⟩
  | cons r0 rest =>
    rw [hrows] at h
    have step : tableCore style (r0 :: rest) hasHeader title
        = match findMismatch r0.length 0 (r0 :: rest) with
          | some (i, a) => Except.error (RenderError.shapeError i r0.length a)
          | none =>
            if r0.length = 0 then Except.error RenderError.emptyColumnSetError
            else Except.ok (joinSep "\n" (tableLines (glyphsOf style)
              (widenedWidths title (colWidths r0.length (r0 :: rest)))
              (r0 :: rest) hasHeader title)) := rfl
    rw [step] at h
    cases hm : findMismatch r0.length 0 (r0 :: rest) with
    | some pair =>
      rw [hm] at h
      cases pair
      simp at h
    | none =>
      rw [hm] at h
      by_cases hz : r0.length = 0
      · rw [if_pos hz] at h
        simp at h
      · rw [if_neg hz] at h
        refine Or.inr ⟨r0, rest, rfl, hz, ?_, (Except.ok.inj h).symm⟩
        exact (findMismatch_none_iff r0.length (r0 :: rest) 0).mp hm

theorem tableCore_ok_lines (style : BorderStyle) (rows : List (List String))
    (hasHeader : Bool) (title : Option String) (t : String)
    (ht : '\n' ∉ (titleStr title).data)
    (h : tableCore style rows hasHeader title = Except.ok t) :
    ∃ L W, t = joinSep "\n" L ∧ L ≠ []
      ∧ (∀ p ∈ L, '\n' ∉ p.data) ∧ (∀ p ∈ L, p.length = W) := by
  rcases tableCore_ok_cases style rows hasHeader title t h with ⟨hr, hL⟩ | hcase
  · refine ⟨tableLines (glyphsOf style) [] [] false title, frameWidth title [], hL, ?_, ?_, ?_⟩
    · simp [tableLines]
    · exact tableLines_noNl _ _ _ _ _ (glyphsOf_wf style) ht
    · exact tableLines_rect _ _ _ _ _ (by simp) (fun _ => rfl) (fun hc => absurd rfl hc)
  · rcases hcase with ⟨r0, rest, hrows, hz, hall, hL⟩
    have hcw : (colWidths r0.length rows) ≠ [] := by
      intro hc
      have := colWidths_length r0.length rows
      rw [hc] at this
      simp at this
      exact hz this.symm
    have hwsne : widenedWidths title (colWidths r0.length rows) ≠ [] := by
      intro hc
      have := widenedWidths_length title (colWidths r0.length rows)
      rw [hc] at this
      exact hcw (List.eq_nil_of_length_eq_zero this.symm)
    refine ⟨tableLines (glyphsOf style)
        (widenedWidths title (colWidths r0.length rows)) rows hasHeader title,
      frameWidth title (widenedWidths title (colWidths r0.length rows)), hL, ?_, ?_, ?_⟩
    · simp [tableLines]
    · exact tableLines_noNl _ _ _ _ _ (glyphsOf_wf style) ht
    · apply tableLines_rect
      · intro r hr
        exact fits_mono r _ _
          (fits_colWidths r0.length rows r hr (by rw [hall r hr]))
          (widened_le title _)
      · intro hc
        exact absurd hc hwsne
      · intro _
        exact widened_titleFits title _ hcw

/-! ## Unfolding the glue -/

theorem render_unfold (cfg : String → String) (m : Meta) (data : List (List String))
    (headers : PyHeaders) (title : Option String) (kw : List (String × String)) :
    render cfg m data headers title kw
      = match style_map (cfg "style") with
        | none => RenderResult.mk
            (Except.error (RenderError.keyError (cfg "style"))) (insertedRows data headers)
        | some bs =>
          match tableCore bs (insertedRows data headers)
              (headers.truthy && headers.isListInstance) title with
          | Except.error e => RenderResult.mk (Except.error e) (insertedRows data headers)
          | Except.ok t => RenderResult.mk
              (Except.ok (if m.padding then "\n" ++ (t ++ "\n") ++ "\n" else t ++ "\n"))
              (insertedRows data headers) := rfl

theorem render_dataAfter (cfg : String → String) (m : Meta) (data : List (List String))
    (headers : PyHeaders) (title : Option String) (kw : List (String × String)) :
    (render cfg m data headers title kw).dataAfter = insertedRows data headers := by
  rw [render_unfold]
  split
  · rfl
  · split
    · rfl
    · rfl

theorem render_out_keyError (cfg : String → String) (m : Meta) (data : List (List String))
    (headers : PyHeaders) (title : Option String) (kw : List (String × String))
    (hsm : style_map (cfg "style") = none) :
    (render cfg m data headers title kw).out
      = Except.error (RenderError.keyError (cfg "style")) := by
  rw [render_unfold]
  simp only [hsm]

theorem render_out_of_core_ok (cfg : String → String) (m : Meta) (data : List (List String))
    (headers : PyHeaders) (title : Option String) (kw : List (String × String))
    (bs : BorderStyle) (t : String)
    (hsm : style_map (cfg "style") = some bs)
    (htc : tableCore bs (insertedRows data headers)
        (headers.truthy && headers.isListInstance) title = Except.ok t) :
    (render cfg m data headers title kw).out
      = Except.ok (if m.padding then "\n" ++ (t ++ "\n") ++ "\n" else t ++ "\n") := by
  rw [render_unfold]
  simp only [hsm, htc]

theorem render_out_of_core_error (cfg : String → String) (m : Meta) (data : List (List String))
    (headers : PyHeaders) (title : Option String) (kw : List (String × String))
    (bs : BorderStyle) (e : RenderError)
    (hsm : style_map (cfg "style") = some bs)
    (htc : tableCore bs (insertedRows data headers)
        (headers.truthy && headers.isListInstance) title = Except.error e) :
    (render cfg m data headers title kw).out = Except.error e := by
  rw [render_unfold]
  simp only [hsm, htc]

theorem render_ok_elim (cfg : String → String) (m : Meta) (data : List (List String))
    (headers : PyHeaders) (title : Option String) (kw : List (String × String)) (s : String)
    (h : (render cfg m data headers title kw).out = Except.ok s) :
    ∃ bs t, style_map (cfg "style") = some bs
      ∧ tableCore bs (insertedRows data headers)
          (headers.truthy && headers.isListInstance) title = Except.ok t
      ∧ s = (if m.padding then "\n" ++ (t ++ "\n") ++ "\n" else t ++ "\n") := by
  rw [render_unfold] at h
  split at h
  · exact absurd h (by simp)
  · split at h
    · exact absurd h (by simp)
    · rename_i x1 bs hsm x2 t htc
      exact ⟨bs, t, hsm, htc, (Except.ok.inj h).symm⟩

/-! ## The claims -/

/-- C1: the claim states that render is referentially transparent and in
particular does not modify the rows argument of the caller.  The code
violates this: data.insert(0, headers) mutates the list the caller passed
in, and a second render call on that same list sees the header row
already inserted and produces different output with a duplicated header
row.  This theorem exhibits the violation at a concrete input. -/
theorem C1_render_mutates_caller_data :
    (render cfgDefault metaDefaults [["1", "2"]] (PyHeaders.pylist ["A", "B"]) none
        []).dataAfter ≠ [["1", "2"]]
    ∧ (render cfgDefault metaDefaults
        ((render cfgDefault metaDefaults [["1", "2"]] (PyHeaders.pylist ["A", "B"]) none
          []).dataAfter)
        (PyHeaders.pylist ["A", "B"]) none []).out
      ≠ (render cfgDefault metaDefaults [["1", "2"]] (PyHeaders.pylist ["A", "B"]) none
          []).out := by
  constructor
  · decide
  · decide

/-- C2, counterexample: with the style configured to the unrecognized
value fancy, render raises the generic lookup KeyError of the style map,
not a ConfigurationError, so the claim as stated is false on the code. -/
theorem C2_unknown_style_is_keyError_not_configurationError :
    (render cfgFancy metaDefaults [["x"]] (PyHeaders.pylist []) none []).out
      = Except.error (RenderError.keyError "fancy")
    ∧ ∀ msg, (render cfgFancy metaDefaults [["x"]] (PyHeaders.pylist []) none []).out
      ≠ Except.error (RenderError.configurationError msg) := by
  constructor
  · decide
  · intro msg hmsg
    rw [show (render cfgFancy metaDefaults [["x"]] (PyHeaders.pylist []) none []).out
        = Except.error (RenderError.keyError "fancy") from by decide] at hmsg
    exact RenderError.noConfusion (Except.error.inj hmsg)

/-- C2, amended: for every configured style value that is not one of
ascii, single, double, render raises the generic lookup error (a KeyError
naming the style value) to the caller; it never silently falls back to a
default style. -/
theorem C2_unknown_style_raises_lookup_error (cfg : String → String) (m : Meta)
    (data : List (List String)) (headers : PyHeaders) (title : Option String)
    (kw : List (String × String))
    (h1 : cfg "style" ≠ "ascii") (h2 : cfg "style" ≠ "single")
    (h3 : cfg "style" ≠ "double") :
    (render cfg m data headers title kw).out
      = Except.error (RenderError.keyError (cfg "style")) := by
  apply render_out_keyError
  simp [style_map, h1, h2, h3]

/-- C2, witness for the amended theorem at a concrete unknown style. -/
theorem C2_unknown_style_raises_lookup_error_witness :
    (render cfgFancy metaDefaults [["x"]] (PyHeaders.pytuple []) none []).out
      = Except.error (RenderError.keyError "fancy") :=
  C2_unknown_style_raises_lookup_error cfgFancy metaDefaults [["x"]]
    (PyHeaders.pytuple []) none [] (by decide) (by decide) (by decide)

/-- C3: when the padding option is enabled the returned string is the
unpadded output surrounded by exactly one leading and one trailing
newline, i.e. the padded output equals a newline, then the unpadded
output, then a newline. -/
theorem C3_padding_adds_one_blank_line_each_side (cfg : String → String) (st : String)
    (data : List (List String)) (headers : PyHeaders) (title : Option String)
    (kw : List (String × String)) (u : String)
    (h : (render cfg (Meta.mk false st) data headers title kw).out = Except.ok u) :
    (render cfg (Meta.mk true st) data headers title kw).out
      = Except.ok ("\n" ++ u ++ "\n") := by
  rcases render_ok_elim cfg (Meta.mk false st) data headers title kw u h
    with ⟨bs, t, hsm, htc, hu⟩
  have hout := render_out_of_core_ok cfg (Meta.mk true st) data headers title kw bs t hsm htc
  rw [hout]
  simp only at hu
  rw [if_neg (by simp)] at hu
  rw [hu]
  simp

/-- C3, witness at a one-cell table with the default ascii style. -/
theorem C3_padding_adds_one_blank_line_each_side_witness :
    (render cfgDefault (Meta.mk true "ascii") [["X"]] (PyHeaders.pylist []) none []).out
      = Except.ok ("\n" ++ "+---+\n| X |\n+---+\n" ++ "\n") :=
  C3_padding_adds_one_blank_line_each_side cfgDefault "ascii" [["X"]]
    (PyHeaders.pylist []) none [] "+---+\n| X |\n+---+\n" (by decide)

/-- C5: the config_defaults of the handler give the style key the default
value ascii, the Meta style default is ascii, and the style map sends
ascii, single and double to the Ascii, Single and Double table styles
respectively (and nothing else is in the map). -/
theorem C5_style_default_and_style_map :
    config_defaults.lookup "style" = some "ascii"
    ∧ metaDefaults.style = "ascii"
    ∧ style_map "ascii" = some BorderStyle.ascii
    ∧ style_map "single" = some BorderStyle.single
    ∧ style_map "double" = some BorderStyle.double := by
  refine ⟨rfl, rfl, rfl, rfl, rfl⟩

/-- C8: the _config wrapper returns the configured value for the key and
ignores its default parameter entirely, so the Meta style fallback passed
at the style lookup site of render never influences the result. -/
theorem C8_config_default_parameter_ignored (cfg : String → String) (key : String)
    (d1 d2 : Option String) (p : Bool) (s1 s2 : String) (data : List (List String))
    (headers : PyHeaders) (title : Option String) (kw : List (String × String)) :
    tt_config cfg key d1 = cfg key
    ∧ tt_config cfg key d1 = tt_config cfg key d2
    ∧ render cfg (Meta.mk p s1) data headers title kw
      = render cfg (Meta.mk p s2) data headers title kw :=
  ⟨rfl, rfl, rfl⟩

/-- C9: an empty headers argument, or a truthy headers argument that is
not a list instance (such as a tuple), is silently ignored: the data list
is left unmodified and the result is the same as rendering with no
headers at all. -/
theorem C9_nonlist_or_empty_headers_ignored (cfg : String → String) (m : Meta)
    (data : List (List String)) (title : Option String) (kw : List (String × String))
    (headers : PyHeaders)
    (h : headers.truthy = false ∨ headers.isListInstance = false) :
    (render cfg m data headers title kw).dataAfter = data
    ∧ render cfg m data headers title kw
      = render cfg m data (PyHeaders.pylist []) title kw := by
  have hcond : (headers.truthy && headers.isListInstance) = false := by
    rcases h with h | h <;> simp [h]
  have hins : insertedRows data headers = data := by
    simp [insertedRows, hcond]
  have hc2 : ((PyHeaders.pylist ([] : List String)).truthy
      && (PyHeaders.pylist ([] : List String)).isListInstance) = false := by decide
  have hins2 : insertedRows data (PyHeaders.pylist []) = data := by
    simp [insertedRows, hc2]
  constructor
  · rw [render_dataAfter, hins]
  · rw [render_unfold, render_unfold, hins, hins2, hcond, hc2]

/-- C9, witness at a concrete tuple headers argument. -/
theorem C9_nonlist_or_empty_headers_ignored_witness :
    (render cfgDefault metaDefaults [["x"]] (PyHeaders.pytuple ["A"]) none
        []).dataAfter = [["x"]]
    ∧ render cfgDefault metaDefaults [["x"]] (PyHeaders.pytuple ["A"]) none []
      = render cfgDefault metaDefaults [["x"]] (PyHeaders.pylist []) none [] :=
  C9_nonlist_or_empty_headers_ignored cfgDefault metaDefaults [["x"]] none []
    (PyHeaders.pytuple ["A"]) (Or.inr rfl)

/-- C10: the extra keyword arguments of render are accepted and never
read, so two calls differing only in them return identical results. -/
theorem C10_extra_keyword_arguments_ignored (cfg : String → String) (m : Meta)
    (data : List (List String)) (headers : PyHeaders) (title : Option String)
    (kw1 kw2 : List (String × String)) :
    render cfg m data headers title kw1 = render cfg m data headers title kw2 := rfl

/-- C4: a non-empty list headers argument is inserted as an additional
leading row before all data rows (visible in the final state of the data
list), and the rendered table contains a distinct header separator line
directly after the physical lines of the header row. -/
theorem C4_headers_leading_row_and_separator (cfg : String → String) (m : Meta)
    (data : List (List String)) (title : Option String) (kw : List (String × String))
    (l : List String) (bs : BorderStyle) (t : String)
    (hne : l ≠ [])
    (hstyle : style_map (cfg "style") = some bs)
    (htitle : '\n' ∉ (titleStr title).data)
    (hok : tableCore bs (l :: data) true title = Except.ok t) :
    (render cfg m data (PyHeaders.pylist l) title kw).dataAfter = l :: data
    ∧ (render cfg m data (PyHeaders.pylist l) title kw).out
      = Except.ok (if m.padding then "\n" ++ (t ++ "\n") ++ "\n" else t ++ "\n")
    ∧ ∃ ws rest,
        asLines t = topBorder (glyphsOf bs) title ws
          :: (rowLinesOf (glyphsOf bs) ws l ++ headSep (glyphsOf bs) ws :: rest) := by
  have hcond : ((PyHeaders.pylist l).truthy && (PyHeaders.pylist l).isListInstance)
      = true := by
    simp [PyHeaders.truthy, PyHeaders.isListInstance, hne]
  have hins : insertedRows data (PyHeaders.pylist l) = l :: data := by
    simp [insertedRows, hcond, PyHeaders.elems]
  refine ⟨by rw [render_dataAfter, hins], ?_, ?_⟩
  · apply render_out_of_core_ok cfg m data (PyHeaders.pylist l) title kw bs t hstyle
    rw [hins, hcond]
    exact hok
  · rcases tableCore_ok_cases bs (l :: data) true title t hok with ⟨habs, _⟩ | hcase
    · exact List.noConfusion habs
    · rcases hcase with ⟨r0, rest, hrows, hz, hall, hL⟩
      injection hrows with hl0 hrest
      subst hl0
      subst hrest
      refine ⟨widenedWidths title (colWidths l.length (l :: data)),
        flatRows (glyphsOf bs) (widenedWidths title (colWidths l.length (l :: data))) data
          ++ [bottomBorder (glyphsOf bs) title
            (widenedWidths title (colWidths l.length (l :: data)))], ?_⟩
      rw [hL, asLines_joinSep _ (by simp [tableLines])
        (tableLines_noNl _ _ _ _ _ (glyphsOf_wf bs) htitle)]
      simp [tableLines, bodyLines]

/-- C4, witness at a concrete table with headers and the ascii style. -/
theorem C4_headers_leading_row_and_separator_witness :
    (render cfgDefault metaDefaults [["1", "2"]] (PyHeaders.pylist ["A", "B"]) none
        []).dataAfter = [["A", "B"], ["1", "2"]]
    ∧ (render cfgDefault metaDefaults [["1", "2"]] (PyHeaders.pylist ["A", "B"]) none
        []).out = Except.ok (if metaDefaults.padding then
          "\n" ++ ("+---+---+\n| A | B |\n+---+---+\n| 1 | 2 |\n+---+---+" ++ "\n") ++ "\n"
          else "+---+---+\n| A | B |\n+---+---+\n| 1 | 2 |\n+---+---+" ++ "\n")
    ∧ ∃ ws rest,
        asLines "+---+---+\n| A | B |\n+---+---+\n| 1 | 2 |\n+---+---+"
          = topBorder (glyphsOf BorderStyle.ascii) none ws
            :: (rowLinesOf (glyphsOf BorderStyle.ascii) ws ["A", "B"]
              ++ headSep (glyphsOf BorderStyle.ascii) ws :: rest) :=
  C4_headers_leading_row_and_separator cfgDefault metaDefaults [["1", "2"]] none []
    ["A", "B"] BorderStyle.ascii "+---+---+\n| A | B |\n+---+---+\n| 1 | 2 |\n+---+---+"
    (by decide) (by decide) (by decide) (by decide)

/-- C6: with a recognized style, any input whose rows (the inserted
header row included) do not all share one cell count makes render fail
with a ShapeError carrying the offending row index and the expected and
actual cell counts, and no output is returned. -/
theorem C6_shape_mismatch_raises_shapeError (cfg : String → String) (m : Meta)
    (data : List (List String)) (headers : PyHeaders) (title : Option String)
    (kw : List (String × String)) (bs : BorderStyle)
    (hstyle : style_map (cfg "style") = some bs)
    (hbad : ¬ ∀ r1 ∈ insertedRows data headers, ∀ r2 ∈ insertedRows data headers,
      r1.length = r2.length) :
    ∃ i exp act,
      (render cfg m data headers title kw).out
        = Except.error (RenderError.shapeError i exp act)
      ∧ exp = ((insertedRows data headers).headD []).length
      ∧ i < (insertedRows data headers).length
      ∧ ((insertedRows data headers).getD i []).length = act
      ∧ act ≠ exp := by
  cases hrows : insertedRows data headers with
  | nil =>
    rw [hrows] at hbad
    simp at hbad
  | cons r0 rest =>
    cases hm : findMismatch r0.length 0 (r0 :: rest) with
    | none =>
      exfalso
      apply hbad
      rw [hrows]
      intro r1 h1 r2 h2
      have hall := (findMismatch_none_iff r0.length (r0 :: rest) 0).mp hm
      rw [hall r1 h1, hall r2 h2]
    | some pair =>
      rcases pair with ⟨j, a⟩
      rcases findMismatch_some_spec r0.length (r0 :: rest) 0 j a hm
        with ⟨k, hk, hj, hg, ha⟩
      have hjk : j = k := by omega
      refine ⟨j, r0.length, a, ?_, ?_, ?_, ?_, ha⟩
      · apply render_out_of_core_error cfg m data headers title kw bs _ hstyle
        rw [hrows]
        have step : tableCore bs (r0 :: rest)
            (headers.truthy && headers.isListInstance) title
            = match findMismatch r0.length 0 (r0 :: rest) with
              | some (i, a) => Except.error (RenderError.shapeError i r0.length a)
              | none =>
                if r0.length = 0 then Except.error RenderError.emptyColumnSetError
                else Except.ok (joinSep "\n" (tableLines (glyphsOf bs)
                  (widenedWidths title (colWidths r0.length (r0 :: rest)))
                  (r0 :: rest) (headers.truthy && headers.isListInstance) title)) := rfl
        rw [step, hm]
      · simp
      · simp only [List.length_cons] at hk ⊢
        omega
      · rw [hjk]
        exact hg

/-- C6, witness at a concrete two-row input with mismatched cell counts. -/
theorem C6_shape_mismatch_raises_shapeError_witness :
    ∃ i exp act,
      (render cfgDefault metaDefaults [["a"], ["b", "c"]] (PyHeaders.pytuple []) none
          []).out = Except.error (RenderError.shapeError i exp act)
      ∧ exp = ((insertedRows [["a"], ["b", "c"]] (PyHeaders.pytuple [])).headD []).length
      ∧ i < (insertedRows [["a"], ["b", "c"]] (PyHeaders.pytuple [])).length
      ∧ ((insertedRows [["a"], ["b", "c"]] (PyHeaders.pytuple [])).getD i []).length = act
      ∧ act ≠ exp :=
  C6_shape_mismatch_raises_shapeError cfgDefault metaDefaults [["a"], ["b", "c"]]
    (PyHeaders.pytuple []) none [] BorderStyle.ascii (by decide) (by decide)

/-- C7, counterexample: the returned string contains the blank padding
lines and the trailing newline, so not every line of the returned string
has the same character width; the empty padding line and the border line
differ in width. -/
theorem C7_padding_lines_break_uniform_width :
    (render cfgDefault metaDefaults [["X"]] (PyHeaders.pylist []) none []).out
      = Except.ok "\n+---+\n| X |\n+---+\n\n"
    ∧ "" ∈ asLines "\n+---+\n| X |\n+---+\n\n"
    ∧ "+---+" ∈ asLines "\n+---+\n| X |\n+---+\n\n"
    ∧ ("" : String).length ≠ ("+---+" : String).length := by
  refine ⟨by decide, by decide, by decide, by decide⟩

/-- C7, amended: for every successful render whose title contains no line
break, all lines of the returned string have one common character width
except for the blank lines added around the frame (the leading and
trailing padding lines and the line after the final newline), which are
empty; in particular every line of the table frame itself is of that one
width. -/
theorem C7_frame_lines_uniform_width (cfg : String → String) (m : Meta)
    (data : List (List String)) (headers : PyHeaders) (title : Option String)
    (kw : List (String × String)) (s : String)
    (htitle : '\n' ∉ (titleStr title).data)
    (hok : (render cfg m data headers title kw).out = Except.ok s) :
    ∃ W, ∀ line ∈ asLines s, line = "" ∨ line.length = W := by
  rcases render_ok_elim cfg m data headers title kw s hok with ⟨bs, t, hsm, htc, hs⟩
  rcases tableCore_ok_lines bs _ _ title t htitle htc with ⟨L, W, hT, hLne, hnl, hlen⟩
  refine ⟨W, ?_⟩
  intro line hline
  cases hp : m.padding with
  | true =>
    have hs2 : s = "\n" ++ (t ++ "\n") ++ "\n" := by
      rw [hs, hp]
      simp
    rw [hs2, hT, asLines_padded L hLne hnl] at hline
    rcases List.mem_cons.mp hline with h | h
    · exact Or.inl h
    · rcases List.mem_append.mp h with h | h
      · exact Or.inr (hlen line h)
      · simp at h
        exact Or.inl h
  | false =>
    have hs2 : s = t ++ "\n" := by
      rw [hs, hp]
      simp
    rw [hs2, hT, asLines_unpadded L hLne hnl] at hline
    rcases List.mem_append.mp hline with h | h
    · exact Or.inr (hlen line h)
    · simp at h
      exact Or.inl h

/-- C7, witness for the amended theorem at a concrete padded render. -/
theorem C7_frame_lines_uniform_width_witness :
    ∃ W, ∀ line ∈ asLines "\n+---+\n| X |\n+---+\n\n", line = "" ∨ line.length = W :=
  C7_frame_lines_uniform_width cfgDefault metaDefaults [["X"]] (PyHeaders.pylist [])
    none [] "\n+---+\n| X |\n+---+\n\n" (by decide) (by decide)
